import Mathlib

/-
Verification of the pagination/geometry engine of `src/panorama_slicer.py`
(class `PanoramaSlicer`).  Python floats are modelled as exact rationals
(`ℚ`); Python ints as `ℤ`.  `math.ceil` / float `//` become `Int.ceil` /
`Int.floor`, and Pillow's box rounding (`map(int, map(round, box))` in
`Image._crop`) is modelled by `pyRound` (round-half-to-even, as Python's
`round`).
-/

namespace PanoramaSlicer

/-- The traversal direction flag `self.right_to_left.get()` is a plain
boolean in the source; `true` means right-to-left. -/
abbrev Rtl := Bool

/-- Page count, from `load_image` (line 165), `on_right_click` (lines
391-392) and `reset_start` (line 401):
`pages_x = math.ceil((img_width - start_offset) / page_width_px)`
(at load and reset, `start_offset = 0`). -/
def pagesX (imgWidth pageWidthPx : ℤ) (startOffset : ℚ) : ℤ :=
  ⌈((imgWidth : ℚ) - startOffset) / (pageWidthPx : ℚ)⌉

/-- The (left, right) pixel rectangle of a 1-based page number, from
`export_page` lines 438-447 (duplicated verbatim in `get_page_image`
lines 739-746). -/
def pageRect (rtl : Rtl) (imgWidth pageWidthPx : ℤ) (startOffset : ℚ)
    (pageNum : ℤ) : ℚ × ℚ :=
  if rtl then
    let startX : ℚ := (imgWidth : ℚ) - startOffset
    let right := startX - ((pageNum : ℚ) - 1) * (pageWidthPx : ℚ)
    let left := max 0 (right - (pageWidthPx : ℚ))
    (left, right)
  else
    let startX : ℚ := startOffset
    let left := startX + ((pageNum : ℚ) - 1) * (pageWidthPx : ℚ)
    let right := min (left + (pageWidthPx : ℚ)) (imgWidth : ℚ)
    (left, right)

/-- Page lookup from an image-space x coordinate, from `on_mouse_move`
lines 356-366 (duplicated in `export_clicked_page` lines 421-430):
`page_num = int(dist_from_start // page_width_px) + 1`. -/
def locatePage (rtl : Rtl) (imgWidth pageWidthPx : ℤ) (startOffset : ℚ)
    (imgX : ℚ) : ℤ :=
  let dist : ℚ :=
    if rtl then ((imgWidth : ℚ) - startOffset) - imgX
    else imgX - startOffset
  ⌊dist / (pageWidthPx : ℚ)⌋ + 1

/-- The mutable pagination fields `self.start_offset` and `self.pages_x`. -/
structure PaginationState where
  startOffset : ℚ
  pagesX : ℤ
deriving DecidableEq, Repr

/-- Pagination state right after `load_image` (lines 161-165):
`start_offset = 0`, `pages_x = ceil(img_width / page_width_px)`. -/
def freshPagination (imgWidth pageWidthPx : ℤ) : PaginationState :=
  ⟨0, ⌈(imgWidth : ℚ) / (pageWidthPx : ℚ)⌉⟩

/-- Model of `reset_start` (lines 397-403): offset back to 0, page count from the
full width. -/
def resetStartState (imgWidth pageWidthPx : ℤ) : PaginationState :=
  ⟨0, ⌈(imgWidth : ℚ) / (pageWidthPx : ℚ)⌉⟩

/-- Model of `on_right_click` (lines 373-395): set the start offset from a raw
image-space x coordinate, clamp it to `[0, img_width - page_width_px]`,
and recompute `pages_x`.  The prior pagination state is fully
overwritten, so the state after `reset_start` followed by
`on_right_click` is just `onRightClickState` of the click coordinate. -/
def onRightClickState (rtl : Rtl) (imgWidth pageWidthPx : ℤ) (imgX : ℚ) :
    PaginationState :=
  let rawOffset : ℚ := if rtl then (imgWidth : ℚ) - imgX else imgX
  let so := max 0 (min rawOffset ((imgWidth : ℚ) - (pageWidthPx : ℚ)))
  ⟨so, ⌈((imgWidth : ℚ) - so) / (pageWidthPx : ℚ)⌉⟩

section SanityChecks

example : pagesX 2500 1000 0 = 3 := by
  unfold pagesX; rw [Int.ceil_eq_iff] <;> norm_num
example : pageRect true 2500 1000 0 3 = (0, 500) := by
  unfold pageRect; norm_num
example : pageRect false 2500 1000 0 3 = (2000, 2500) := by
  unfold pageRect; norm_num
example : locatePage true 2500 1000 0 250 = 3 := by
  unfold locatePage; norm_num

end SanityChecks

/-! Shared arithmetic facts about `pagesX` used by several claims. -/

/-- The cast of a positive integer page width is positive. -/
lemma pageWidth_posQ {p : ℤ} (hp : 0 < p) : (0 : ℚ) < (p : ℚ) := by
  exact_mod_cast hp

/-- With a clamped start offset there is at least one page. -/
lemma one_le_pagesX {W p : ℤ} {s : ℚ} (hp : 0 < p) (hs1 : s ≤ (W : ℚ) - p) :
    1 ≤ pagesX W p s := by
  have hp' := pageWidth_posQ hp
  have hpos : (0 : ℚ) < ((W : ℚ) - s) / (p : ℚ) :=
    div_pos (by linarith) hp'
  have := Int.ceil_pos.2 hpos
  unfold pagesX
  omega

/-- Any page number up to `pagesX` starts strictly inside the paginated
span: `(n - 1) * p < W - s`. -/
lemma pageNum_mul_lt {W p : ℤ} {s : ℚ} {n : ℤ} (hp : 0 < p)
    (hn : n ≤ pagesX W p s) : ((n : ℚ) - 1) * (p : ℚ) < (W : ℚ) - s := by
  have hp' := pageWidth_posQ hp
  have h1 : n - 1 < pagesX W p s := by omega
  have h2 : ((n - 1 : ℤ) : ℚ) < ((W : ℚ) - s) / (p : ℚ) := Int.lt_ceil.1 h1
  calc ((n : ℚ) - 1) * (p : ℚ) = ((n - 1 : ℤ) : ℚ) * (p : ℚ) := by push_cast; ring
    _ < ((W : ℚ) - s) / (p : ℚ) * (p : ℚ) := mul_lt_mul_of_pos_right h2 hp'
    _ = (W : ℚ) - s := div_mul_cancel₀ _ (ne_of_gt hp')

/-- The paginated span is covered by `pagesX` pages: `W - s ≤ pagesX * p`. -/
lemma span_le_pagesX_mul {W p : ℤ} {s : ℚ} (hp : 0 < p) :
    (W : ℚ) - s ≤ ((pagesX W p s : ℤ) : ℚ) * (p : ℚ) := by
  have hp' := pageWidth_posQ hp
  have h := Int.le_ceil (((W : ℚ) - s) / (p : ℚ))
  calc (W : ℚ) - s = ((W : ℚ) - s) / (p : ℚ) * (p : ℚ) :=
        (div_mul_cancel₀ _ (ne_of_gt hp')).symm
    _ ≤ ((pagesX W p s : ℤ) : ℚ) * (p : ℚ) := mul_le_mul_of_nonneg_right h hp'.le

/-- Floor of an integer plus a fractional part in `[0, 1)`. -/
lemma floor_int_add_of_nonneg_of_lt_one {z : ℤ} {r : ℚ} (h0 : 0 ≤ r)
    (h1 : r < 1) : ⌊(z : ℚ) + r⌋ = z := by
  rw [Int.floor_int_add, Int.floor_eq_zero_iff.2 ⟨h0, h1⟩, add_zero]

/-- C1: for every raster with `rasterWidth > 0` and `pageWidthPx > 0`,
every direction, every clamped `startOffsetPx ∈ [0, rasterWidth −
pageWidthPx]`, and every `1 ≤ pageNum ≤ pageCount`, the page rectangle
computed by `export_page` / `get_page_image` satisfies `0 ≤ left < right
≤ rasterWidth`, and it equals the spec's anchor formulas: for
RightToLeft `right = (rasterWidth − startOffsetPx) − (pageNum−1)·p`,
`left = max 0 (right − p)`; for LeftToRight `left = startOffsetPx +
(pageNum−1)·p`, `right = min (left + p) rasterWidth`. -/
theorem export_page_rect_bounds (rtl : Rtl) (W p : ℤ) (s : ℚ) (n : ℤ)
    (hW : 0 < W) (hp : 0 < p) (hs0 : 0 ≤ s) (hs1 : s ≤ (W : ℚ) - p)
    (hn1 : 1 ≤ n) (hn2 : n ≤ pagesX W p s) :
    0 ≤ (pageRect rtl W p s n).1 ∧
    (pageRect rtl W p s n).1 < (pageRect rtl W p s n).2 ∧
    (pageRect rtl W p s n).2 ≤ (W : ℚ) ∧
    (rtl = true → pageRect rtl W p s n =
      (max 0 ((((W : ℚ) - s) - ((n : ℚ) - 1) * (p : ℚ)) - (p : ℚ)),
        ((W : ℚ) - s) - ((n : ℚ) - 1) * (p : ℚ))) ∧
    (rtl = false → pageRect rtl W p s n =
      (s + ((n : ℚ) - 1) * (p : ℚ),
        min (s + ((n : ℚ) - 1) * (p : ℚ) + (p : ℚ)) (W : ℚ))) := by
  have hp' := pageWidth_posQ hp
  have hfit := pageNum_mul_lt hp hn2
  have hnn : (0 : ℚ) ≤ ((n : ℚ) - 1) * (p : ℚ) := by
    have : (1 : ℚ) ≤ (n : ℚ) := by exact_mod_cast hn1
    nlinarith
  cases rtl with
  | true =>
    have hrect : pageRect true W p s n =
        (max 0 ((((W : ℚ) - s) - ((n : ℚ) - 1) * (p : ℚ)) - (p : ℚ)),
          ((W : ℚ) - s) - ((n : ℚ) - 1) * (p : ℚ)) := rfl
    rw [hrect]
    dsimp only
    refine ⟨le_max_left _ _, max_lt (by linarith) (by linarith), by linarith,
      fun _ => rfl, fun h => by simp at h⟩
  | false =>
    have hrect : pageRect false W p s n =
        (s + ((n : ℚ) - 1) * (p : ℚ),
          min (s + ((n : ℚ) - 1) * (p : ℚ) + (p : ℚ)) (W : ℚ)) := rfl
    rw [hrect]
    dsimp only
    refine ⟨by linarith, lt_min (by linarith) (by linarith), min_le_right _ _,
      fun h => by simp at h, fun _ => rfl⟩

/-- Witness for C1 at the spec's boundary scenario `rasterWidth = 2500`,
`pageWidthPx = 1000`, `startOffsetPx = 0`, page 3, RightToLeft. -/
theorem export_page_rect_bounds_witness :
    (0 < (2500 : ℤ) ∧ 0 < (1000 : ℤ) ∧ (0 : ℚ) ≤ 0 ∧
      (0 : ℚ) ≤ (2500 : ℚ) - 1000 ∧ 1 ≤ (3 : ℤ) ∧ 3 ≤ pagesX 2500 1000 0) ∧
    (0 ≤ (pageRect true 2500 1000 0 3).1 ∧
      (pageRect true 2500 1000 0 3).1 < (pageRect true 2500 1000 0 3).2 ∧
      (pageRect true 2500 1000 0 3).2 ≤ ((2500 : ℤ) : ℚ) ∧
      (true = true → pageRect true 2500 1000 0 3 =
        (max 0 (((((2500 : ℤ) : ℚ) - 0) - ((3 : ℚ) - 1) * ((1000 : ℤ) : ℚ)) -
          ((1000 : ℤ) : ℚ)),
          (((2500 : ℤ) : ℚ) - 0) - ((3 : ℚ) - 1) * ((1000 : ℤ) : ℚ))) ∧
      (true = false → pageRect true 2500 1000 0 3 =
        (0 + ((3 : ℚ) - 1) * ((1000 : ℤ) : ℚ),
          min (0 + ((3 : ℚ) - 1) * ((1000 : ℤ) : ℚ) + ((1000 : ℤ) : ℚ))
            ((2500 : ℤ) : ℚ)))) := by
  have hpx : pagesX 2500 1000 0 = 3 := by
    unfold pagesX; rw [Int.ceil_eq_iff] <;> norm_num
  refine ⟨⟨by norm_num, by norm_num, le_refl _, by norm_num, by norm_num, by omega⟩, ?_⟩
  exact export_page_rect_bounds true 2500 1000 0 3 (by norm_num) (by norm_num)
    (le_refl _) (by norm_num) (by norm_num) (by omega)

/-- C3: applying the page-lookup formula of `on_mouse_move` /
`export_clicked_page` (floor division of the distance from the anchor by
`pageWidthPx`, plus 1) to the horizontal midpoint of page `n`'s
rectangle returns exactly `n`, for every direction, clamped start offset
and `1 ≤ n ≤ pageCount`. -/
theorem locatePage_pageRect_midpoint (rtl : Rtl) (W p : ℤ) (s : ℚ) (n : ℤ)
    (hW : 0 < W) (hp : 0 < p) (hs0 : 0 ≤ s) (hs1 : s ≤ (W : ℚ) - p)
    (hn1 : 1 ≤ n) (hn2 : n ≤ pagesX W p s) :
    locatePage rtl W p s
      (((pageRect rtl W p s n).1 + (pageRect rtl W p s n).2) / 2) = n := by
  have hp' := pageWidth_posQ hp
  have hpne : (p : ℚ) ≠ 0 := ne_of_gt hp'
  have hfit := pageNum_mul_lt hp hn2
  have hfloor : ∀ t : ℚ, 0 ≤ t → t < 1 → ⌊((n : ℚ) - 1) + t⌋ = n - 1 := by
    intro t h0 h1
    have hc : ((n : ℚ) - 1) = ((n - 1 : ℤ) : ℚ) := by push_cast; ring
    rw [hc, floor_int_add_of_nonneg_of_lt_one h0 h1]
  cases rtl with
  | true =>
    have hrect : pageRect true W p s n =
        (max 0 ((((W : ℚ) - s) - ((n : ℚ) - 1) * (p : ℚ)) - (p : ℚ)),
          ((W : ℚ) - s) - ((n : ℚ) - 1) * (p : ℚ)) := rfl
    have hloc : ∀ x : ℚ, locatePage true W p s x =
        ⌊(((W : ℚ) - s) - x) / (p : ℚ)⌋ + 1 := fun _ => rfl
    rw [hrect]
    dsimp only
    rw [hloc]
    rcases le_or_lt (p : ℚ) (((W : ℚ) - s) - ((n : ℚ) - 1) * (p : ℚ)) with h | h
    · rw [max_eq_right (by linarith)]
      have harg : (((W : ℚ) - s) -
          ((((((W : ℚ) - s) - ((n : ℚ) - 1) * (p : ℚ)) - (p : ℚ)) +
            (((W : ℚ) - s) - ((n : ℚ) - 1) * (p : ℚ))) / 2)) / (p : ℚ)
          = ((n : ℚ) - 1) + 1 / 2 := by
        field_simp
        ring
      rw [harg, hfloor (1 / 2) (by norm_num) (by norm_num)]
      omega
    · rw [max_eq_left (by linarith)]
      have harg : (((W : ℚ) - s) -
          ((0 + (((W : ℚ) - s) - ((n : ℚ) - 1) * (p : ℚ))) / 2)) / (p : ℚ)
          = ((n : ℚ) - 1) +
            ((((W : ℚ) - s) - ((n : ℚ) - 1) * (p : ℚ)) / (2 * (p : ℚ))) := by
        field_simp
        ring
      rw [harg, hfloor _ (div_nonneg (by linarith) (by positivity))
        ((div_lt_one (by positivity)).2 (by linarith))]
      omega
  | false =>
    have hrect : pageRect false W p s n =
        (s + ((n : ℚ) - 1) * (p : ℚ),
          min (s + ((n : ℚ) - 1) * (p : ℚ) + (p : ℚ)) (W : ℚ)) := rfl
    have hloc : ∀ x : ℚ, locatePage false W p s x =
        ⌊(x - s) / (p : ℚ)⌋ + 1 := fun _ => rfl
    rw [hrect]
    dsimp only
    rw [hloc]
    rcases le_or_lt (s + ((n : ℚ) - 1) * (p : ℚ) + (p : ℚ)) (W : ℚ) with h | h
    · rw [min_eq_left h]
      have harg : (((s + ((n : ℚ) - 1) * (p : ℚ)) +
          (s + ((n : ℚ) - 1) * (p : ℚ) + (p : ℚ))) / 2 - s) / (p : ℚ)
          = ((n : ℚ) - 1) + 1 / 2 := by
        field_simp
        ring
      rw [harg, hfloor (1 / 2) (by norm_num) (by norm_num)]
      omega
    · rw [min_eq_right (le_of_lt h)]
      have harg : (((s + ((n : ℚ) - 1) * (p : ℚ)) + (W : ℚ)) / 2 - s) / (p : ℚ)
          = ((n : ℚ) - 1) +
            ((((W : ℚ) - s) - ((n : ℚ) - 1) * (p : ℚ)) / (2 * (p : ℚ))) := by
        field_simp
        ring
      rw [harg, hfloor _ (div_nonneg (by linarith) (by positivity))
        ((div_lt_one (by positivity)).2 (by linarith))]
      omega

/-- Witness for C3: RightToLeft, 2500px raster, 1000px pages, zero
offset, page 3 (midpoint 250) locates back to page 3. -/
theorem locatePage_pageRect_midpoint_witness :
    (0 < (2500 : ℤ) ∧ 0 < (1000 : ℤ) ∧ (0 : ℚ) ≤ 0 ∧
      (0 : ℚ) ≤ ((2500 : ℤ) : ℚ) - ((1000 : ℤ) : ℚ) ∧ 1 ≤ (3 : ℤ) ∧
      3 ≤ pagesX 2500 1000 0) ∧
    locatePage true 2500 1000 0
      (((pageRect true 2500 1000 0 3).1 + (pageRect true 2500 1000 0 3).2) / 2)
      = 3 := by
  have hpx : pagesX 2500 1000 0 = 3 := by
    unfold pagesX; rw [Int.ceil_eq_iff] <;> norm_num
  refine ⟨⟨by norm_num, by norm_num, le_refl _, by norm_num, by norm_num, by omega⟩, ?_⟩
  exact locatePage_pageRect_midpoint true 2500 1000 0 3 (by norm_num) (by norm_num)
    (le_refl _) (by norm_num) (by norm_num) (by omega)

/-- Membership of an image-space x coordinate in the half-open pixel
column span `[left, right)` of a page, as cropped by `export_page` /
`get_page_image`. -/
def inPage (rtl : Rtl) (W p : ℤ) (s : ℚ) (n : ℤ) (x : ℚ) : Prop :=
  (pageRect rtl W p s n).1 ≤ x ∧ x < (pageRect rtl W p s n).2

/-- The RightToLeft branch of `pageRect`, unfolded. -/
lemma pageRect_rtl (W p : ℤ) (s : ℚ) (n : ℤ) :
    pageRect true W p s n =
      (max 0 ((((W : ℚ) - s) - ((n : ℚ) - 1) * (p : ℚ)) - (p : ℚ)),
        ((W : ℚ) - s) - ((n : ℚ) - 1) * (p : ℚ)) := rfl

/-- The LeftToRight branch of `pageRect`, unfolded. -/
lemma pageRect_ltr (W p : ℤ) (s : ℚ) (n : ℤ) :
    pageRect false W p s n =
      (s + ((n : ℚ) - 1) * (p : ℚ),
        min (s + ((n : ℚ) - 1) * (p : ℚ) + (p : ℚ)) (W : ℚ)) := rfl

/-- Two distinct pages have disjoint half-open spans (ordered form). -/
lemma inPage_disjoint_aux (rtl : Rtl) (W p : ℤ) (s : ℚ) (hp : 0 < p)
    {m n : ℤ} (hmn : m < n) (x : ℚ) :
    inPage rtl W p s m x → inPage rtl W p s n x → False := by
  intro hm hn
  have hp' := pageWidth_posQ hp
  have hcast : (m : ℚ) ≤ (n : ℚ) - 1 := by
    have h : (m : ℚ) + 1 ≤ (n : ℚ) := by exact_mod_cast hmn
    linarith
  have hmul : (m : ℚ) * (p : ℚ) ≤ ((n : ℚ) - 1) * (p : ℚ) :=
    mul_le_mul_of_nonneg_right hcast hp'.le
  cases rtl with
  | true =>
    simp only [inPage, pageRect_rtl] at hm hn
    have h1 : (((W : ℚ) - s) - ((m : ℚ) - 1) * (p : ℚ)) - (p : ℚ) ≤ x :=
      le_trans (le_max_right _ _) hm.1
    have e1 : (((W : ℚ) - s) - ((m : ℚ) - 1) * (p : ℚ)) - (p : ℚ)
        = ((W : ℚ) - s) - (m : ℚ) * (p : ℚ) := by ring
    rw [e1] at h1
    have h2 := hn.2
    linarith
  | false =>
    simp only [inPage, pageRect_ltr] at hm hn
    have h1 : x < s + ((m : ℚ) - 1) * (p : ℚ) + (p : ℚ) :=
      lt_of_lt_of_le hm.2 (min_le_left _ _)
    have e1 : s + ((m : ℚ) - 1) * (p : ℚ) + (p : ℚ)
        = s + (m : ℚ) * (p : ℚ) := by ring
    rw [e1] at h1
    have h2 := hn.1
    linarith

/-- Every point of the RightToLeft covered span `[0, W − s)` lies in
exactly the page found by walking from the anchor. -/
lemma inPage_union_rtl (W p : ℤ) (s : ℚ) (hp : 0 < p) (x : ℚ) :
    (∃ n : ℤ, 1 ≤ n ∧ n ≤ pagesX W p s ∧ inPage true W p s n x) ↔
      (0 ≤ x ∧ x < (W : ℚ) - s) := by
  have hp' := pageWidth_posQ hp
  constructor
  · rintro ⟨n, hn1, hn2, hl, hr⟩
    rw [pageRect_rtl] at hl hr
    dsimp only at hl hr
    have hnn : (0 : ℚ) ≤ ((n : ℚ) - 1) * (p : ℚ) := by
      have h1 : (1 : ℚ) ≤ (n : ℚ) := by exact_mod_cast hn1
      nlinarith
    exact ⟨le_trans (le_max_left _ _) hl, by linarith⟩
  · rintro ⟨hx0, hxa⟩
    set c : ℤ := ⌈(((W : ℚ) - s) - x) / (p : ℚ)⌉ with hc
    have hy0 : (0 : ℚ) < (((W : ℚ) - s) - x) / (p : ℚ) :=
      div_pos (by linarith) hp'
    have hc1 : 1 ≤ c := by have := Int.ceil_pos.2 hy0; omega
    have hck : c ≤ pagesX W p s := by
      unfold pagesX
      exact Int.ceil_le_ceil ((div_le_div_right hp').2 (by linarith))
    have hle : ((W : ℚ) - s) - x ≤ (c : ℚ) * (p : ℚ) := by
      have h := Int.le_ceil ((((W : ℚ) - s) - x) / (p : ℚ))
      calc ((W : ℚ) - s) - x
          = (((W : ℚ) - s) - x) / (p : ℚ) * (p : ℚ) :=
            (div_mul_cancel₀ _ (ne_of_gt hp')).symm
        _ ≤ (c : ℚ) * (p : ℚ) := mul_le_mul_of_nonneg_right h hp'.le
    have hlt : ((c : ℚ) - 1) * (p : ℚ) < ((W : ℚ) - s) - x := by
      have h := Int.ceil_lt_add_one ((((W : ℚ) - s) - x) / (p : ℚ))
      have h2 : (c : ℚ) - 1 < (((W : ℚ) - s) - x) / (p : ℚ) := by
        rw [hc]; push_cast; linarith
      calc ((c : ℚ) - 1) * (p : ℚ)
          < (((W : ℚ) - s) - x) / (p : ℚ) * (p : ℚ) :=
            mul_lt_mul_of_pos_right h2 hp'
        _ = ((W : ℚ) - s) - x := div_mul_cancel₀ _ (ne_of_gt hp')
    refine ⟨c, hc1, hck, ?_, ?_⟩
    · rw [pageRect_rtl]
      dsimp only
      have e : (((W : ℚ) - s) - ((c : ℚ) - 1) * (p : ℚ)) - (p : ℚ)
          = ((W : ℚ) - s) - (c : ℚ) * (p : ℚ) := by ring
      rw [e]
      exact max_le hx0 (by linarith)
    · rw [pageRect_rtl]
      dsimp only
      linarith

/-- Every point of the LeftToRight covered span `[s, W)` lies in exactly
the page found by walking from the anchor. -/
lemma inPage_union_ltr (W p : ℤ) (s : ℚ) (hp : 0 < p) (x : ℚ) :
    (∃ n : ℤ, 1 ≤ n ∧ n ≤ pagesX W p s ∧ inPage false W p s n x) ↔
      (s ≤ x ∧ x < (W : ℚ)) := by
  have hp' := pageWidth_posQ hp
  constructor
  · rintro ⟨n, hn1, hn2, hl, hr⟩
    rw [pageRect_ltr] at hl hr
    dsimp only at hl hr
    have hnn : (0 : ℚ) ≤ ((n : ℚ) - 1) * (p : ℚ) := by
      have h1 : (1 : ℚ) ≤ (n : ℚ) := by exact_mod_cast hn1
      nlinarith
    exact ⟨by linarith, lt_of_lt_of_le hr (min_le_right _ _)⟩
  · rintro ⟨hxs, hxW⟩
    set f : ℤ := ⌊(x - s) / (p : ℚ)⌋ with hf
    have hy0 : (0 : ℚ) ≤ (x - s) / (p : ℚ) := div_nonneg (by linarith) hp'.le
    have hf0 : 0 ≤ f := Int.floor_nonneg.2 hy0
    have hfk : f + 1 ≤ pagesX W p s := by
      have hlt : (x - s) / (p : ℚ) < ((W : ℚ) - s) / (p : ℚ) :=
        (div_lt_div_right hp').2 (by linarith)
      have h2 : f < pagesX W p s := by
        unfold pagesX
        exact Int.lt_ceil.2 (lt_of_le_of_lt (Int.floor_le _) hlt)
      omega
    have hfle : (f : ℚ) * (p : ℚ) ≤ x - s := by
      have h := Int.floor_le ((x - s) / (p : ℚ))
      calc (f : ℚ) * (p : ℚ)
          ≤ (x - s) / (p : ℚ) * (p : ℚ) := mul_le_mul_of_nonneg_right h hp'.le
        _ = x - s := div_mul_cancel₀ _ (ne_of_gt hp')
    have hflt : x - s < ((f : ℚ) + 1) * (p : ℚ) := by
      have h := Int.lt_floor_add_one ((x - s) / (p : ℚ))
      calc x - s = (x - s) / (p : ℚ) * (p : ℚ) :=
            (div_mul_cancel₀ _ (ne_of_gt hp')).symm
        _ < ((f : ℚ) + 1) * (p : ℚ) := by
            exact mul_lt_mul_of_pos_right (by push_cast; linarith) hp'
    refine ⟨f + 1, by omega, hfk, ?_, ?_⟩
    · rw [pageRect_ltr]
      dsimp only
      have e : (((f + 1 : ℤ) : ℚ) - 1) * (p : ℚ) = (f : ℚ) * (p : ℚ) := by
        push_cast; ring
      rw [e]
      linarith
    · rw [pageRect_ltr]
      dsimp only
      have e : (((f + 1 : ℤ) : ℚ) - 1) * (p : ℚ) = (f : ℚ) * (p : ℚ) := by
        push_cast; ring
      rw [e]
      exact lt_min (by linarith) hxW

/-- C10: for every direction and clamped start offset, the page spans of
pages `1 .. pageCount` are pairwise disjoint, each pair of consecutive
pages shares exactly its one boundary coordinate (comparing the closed
spans), and the union of the half-open spans is `[startOffsetPx,
rasterWidth)` for LeftToRight and `[0, rasterWidth − startOffsetPx)` for
RightToLeft — so the strip between the start anchor and the natural edge
is covered by no page. -/
theorem pageRects_partition (rtl : Rtl) (W p : ℤ) (s : ℚ)
    (hW : 0 < W) (hp : 0 < p) (hs0 : 0 ≤ s) (hs1 : s ≤ (W : ℚ) - p) :
    (∀ m n : ℤ, 1 ≤ m → m ≤ pagesX W p s → 1 ≤ n → n ≤ pagesX W p s →
      m ≠ n → ∀ x : ℚ, inPage rtl W p s m x → ¬ inPage rtl W p s n x) ∧
    (∀ n : ℤ, 1 ≤ n → n + 1 ≤ pagesX W p s → ∀ x : ℚ,
      ((pageRect rtl W p s n).1 ≤ x ∧ x ≤ (pageRect rtl W p s n).2 ∧
        (pageRect rtl W p s (n + 1)).1 ≤ x ∧
        x ≤ (pageRect rtl W p s (n + 1)).2) ↔
      x = (if rtl then (pageRect rtl W p s n).1
        else (pageRect rtl W p s n).2)) ∧
    (∀ x : ℚ, (∃ n : ℤ, 1 ≤ n ∧ n ≤ pagesX W p s ∧ inPage rtl W p s n x) ↔
      (if rtl then 0 ≤ x ∧ x < (W : ℚ) - s else s ≤ x ∧ x < (W : ℚ))) := by
  have hp' := pageWidth_posQ hp
  refine ⟨?_, ?_, ?_⟩
  · intro m n hm1 hm2 hn1 hn2 hmn x hxm hxn
    rcases lt_or_gt_of_ne hmn with h | h
    · exact inPage_disjoint_aux rtl W p s hp h x hxm hxn
    · exact inPage_disjoint_aux rtl W p s hp h x hxn hxm
  · intro n hn1 hn2 x
    have hfit := pageNum_mul_lt hp hn2
    have hfitq : (n : ℚ) * (p : ℚ) < (W : ℚ) - s := by
      have e : (((n + 1 : ℤ) : ℚ) - 1) * (p : ℚ) = (n : ℚ) * (p : ℚ) := by
        push_cast; ring
      rw [← e]; exact hfit
    cases rtl with
    | true =>
      rw [pageRect_rtl, pageRect_rtl]
      dsimp only
      rw [if_pos rfl]
      have e1 : (((W : ℚ) - s) - (((n + 1 : ℤ) : ℚ) - 1) * (p : ℚ))
          = (((W : ℚ) - s) - ((n : ℚ) - 1) * (p : ℚ)) - (p : ℚ) := by
        push_cast; ring
      rw [e1]
      have hpos : 0 < (((W : ℚ) - s) - ((n : ℚ) - 1) * (p : ℚ)) - (p : ℚ) := by
        have e3 : (((W : ℚ) - s) - ((n : ℚ) - 1) * (p : ℚ)) - (p : ℚ)
            = ((W : ℚ) - s) - (n : ℚ) * (p : ℚ) := by ring
        rw [e3]; linarith
      have hmax1 : max 0 ((((W : ℚ) - s) - ((n : ℚ) - 1) * (p : ℚ)) - (p : ℚ))
          = (((W : ℚ) - s) - ((n : ℚ) - 1) * (p : ℚ)) - (p : ℚ) :=
        max_eq_right hpos.le
      rw [hmax1]
      constructor
      · rintro ⟨ha, _, _, hd⟩
        exact le_antisymm hd ha
      · intro hx
        subst hx
        refine ⟨le_refl _, by linarith, ?_, le_refl _⟩
        exact max_le hpos.le (by linarith)
    | false =>
      rw [pageRect_ltr, pageRect_ltr]
      dsimp only
      rw [if_neg (by decide : ¬(false = true))]
      have e1 : s + (((n + 1 : ℤ) : ℚ) - 1) * (p : ℚ)
          = s + ((n : ℚ) - 1) * (p : ℚ) + (p : ℚ) := by push_cast; ring
      rw [e1]
      have hltW : s + ((n : ℚ) - 1) * (p : ℚ) + (p : ℚ) < (W : ℚ) := by
        have e3 : s + ((n : ℚ) - 1) * (p : ℚ) + (p : ℚ)
            = s + (n : ℚ) * (p : ℚ) := by ring
        rw [e3]; linarith
      have hmin1 : min (s + ((n : ℚ) - 1) * (p : ℚ) + (p : ℚ)) (W : ℚ)
          = s + ((n : ℚ) - 1) * (p : ℚ) + (p : ℚ) := min_eq_left hltW.le
      rw [hmin1]
      constructor
      · rintro ⟨_, hb, hc, _⟩
        exact le_antisymm hb hc
      · intro hx
        subst hx
        refine ⟨by linarith, le_refl _, le_refl _, ?_⟩
        exact le_min (by linarith) hltW.le
  · intro x
    cases rtl with
    | true => simpa using inPage_union_rtl W p s hp x
    | false => simpa using inPage_union_ltr W p s hp x

/-- Witness for C10: RightToLeft, 2500px raster, 1000px pages, offset
500 — the strip `[2000, 2500)` next to the right edge is pageless. -/
theorem pageRects_partition_witness :
    (0 < (2500 : ℤ) ∧ 0 < (1000 : ℤ) ∧ (0 : ℚ) ≤ 500 ∧
      (500 : ℚ) ≤ ((2500 : ℤ) : ℚ) - ((1000 : ℤ) : ℚ)) ∧
    (∀ x : ℚ,
      (∃ n : ℤ, 1 ≤ n ∧ n ≤ pagesX 2500 1000 500 ∧
        inPage true 2500 1000 500 n x) ↔
      (if true then 0 ≤ x ∧ x < ((2500 : ℤ) : ℚ) - 500
        else (500 : ℚ) ≤ x ∧ x < ((2500 : ℤ) : ℚ))) := by
  refine ⟨⟨by norm_num, by norm_num, by norm_num, by norm_num⟩, ?_⟩
  exact (pageRects_partition true 2500 1000 500 (by norm_num) (by norm_num)
    (by norm_num) (by norm_num)).2.2

/-- The RightToLeft branch of `on_right_click`, unfolded. -/
lemma onRightClickState_true (W p : ℤ) (x : ℚ) :
    onRightClickState true W p x =
      ⟨max 0 (min ((W : ℚ) - x) ((W : ℚ) - (p : ℚ))),
        ⌈((W : ℚ) - max 0 (min ((W : ℚ) - x) ((W : ℚ) - (p : ℚ)))) / (p : ℚ)⌉⟩ :=
  rfl

/-- The LeftToRight branch of `on_right_click`, unfolded. -/
lemma onRightClickState_false (W p : ℤ) (x : ℚ) :
    onRightClickState false W p x =
      ⟨max 0 (min x ((W : ℚ) - (p : ℚ))),
        ⌈((W : ℚ) - max 0 (min x ((W : ℚ) - (p : ℚ)))) / (p : ℚ)⌉⟩ :=
  rfl

/-- C4 counterexample: for RightToLeft on a 2500px raster with 1000px
pages, `reset_start` followed by `on_right_click` at raw image x = 0
(which `onRightClickState` fully determines, since the prior pagination
state is overwritten) clamps the offset to 1500 with a single page —
not the freshly loaded state `(0, 3)`. -/
theorem onRightClick_zero_rtl_ne_fresh :
    onRightClickState true 2500 1000 0 ≠ freshPagination 2500 1000 := by
  rw [onRightClickState_true]
  intro h
  have hs := congrArg PaginationState.startOffset h
  simp only [freshPagination] at hs
  norm_num at hs

/-- C4 (amended): `reset_start` followed by `on_right_click` at the raw
image coordinate of the direction's natural edge — x = 0 for
LeftToRight, x = rasterWidth for RightToLeft — reproduces the freshly
loaded pagination state; at x = 0 the RightToLeft branch instead clamps
the offset to `rasterWidth − pageWidthPx`. -/
theorem resetStart_setStart_edge_eq_fresh (W p : ℤ) (hp : 0 < p)
    (hpW : p ≤ W) :
    onRightClickState false W p 0 = freshPagination W p ∧
    onRightClickState true W p ((W : ℤ) : ℚ) = freshPagination W p := by
  have hWp : (p : ℚ) ≤ (W : ℚ) := by exact_mod_cast hpW
  have hmin : min (0 : ℚ) ((W : ℚ) - (p : ℚ)) = 0 :=
    min_eq_left (by linarith)
  constructor
  · rw [onRightClickState_false, hmin, max_self, sub_zero]
    rfl
  · rw [onRightClickState_true, sub_self, hmin, max_self, sub_zero]
    rfl

/-- Witness for the amended C4 on a 2500px raster with 1000px pages. -/
theorem resetStart_setStart_edge_eq_fresh_witness :
    (0 < (1000 : ℤ) ∧ (1000 : ℤ) ≤ 2500) ∧
    (onRightClickState false 2500 1000 0 = freshPagination 2500 1000 ∧
      onRightClickState true 2500 1000 (((2500 : ℤ) : ℤ) : ℚ) =
        freshPagination 2500 1000) :=
  ⟨⟨by norm_num, by norm_num⟩,
    resetStart_setStart_edge_eq_fresh 2500 1000 (by norm_num) (by norm_num)⟩

/-- Visible page range from `get_visible_page_numbers` (lines 624-639)
and `export_visible_pages` (lines 498-513): the view spans image-space
`[viewLeft, viewRight]`, and `pages` is the stored `self.pages_x`. -/
def get_visible_page_range (rtl : Rtl) (W p : ℤ) (s : ℚ) (pages : ℤ)
    (viewLeft viewRight : ℚ) : ℤ × ℤ :=
  if rtl then
    (max 1 (⌊(((W : ℚ) - s) - viewRight) / (p : ℚ)⌋ + 1),
      min pages (⌊(((W : ℚ) - s) - viewLeft) / (p : ℚ)⌋ + 1))
  else
    (max 1 (⌊(viewLeft - s) / (p : ℚ)⌋ + 1),
      min pages (⌊(viewRight - s) / (p : ℚ)⌋ + 1))

/-- The RightToLeft branch of `get_visible_page_range`, unfolded. -/
lemma get_visible_page_range_rtl (W p : ℤ) (s : ℚ) (pages : ℤ)
    (l r : ℚ) :
    get_visible_page_range true W p s pages l r =
      (max 1 (⌊(((W : ℚ) - s) - r) / (p : ℚ)⌋ + 1),
        min pages (⌊(((W : ℚ) - s) - l) / (p : ℚ)⌋ + 1)) := rfl

/-- The LeftToRight branch of `get_visible_page_range`, unfolded. -/
lemma get_visible_page_range_ltr (W p : ℤ) (s : ℚ) (pages : ℤ)
    (l r : ℚ) :
    get_visible_page_range false W p s pages l r =
      (max 1 (⌊(l - s) / (p : ℚ)⌋ + 1),
        min pages (⌊(r - s) / (p : ℚ)⌋ + 1)) := rfl

/-- C7 counterexample: RightToLeft, 2500px raster, 1000px pages, offset
500 (2 pages, anchor at 2000).  A 200px-wide view panned to 2100 — a
legal clamped pan, since `2100 ≤ 2500 − 200` — lies wholly in the
pageless strip `[2000, 2500)`, and the computed range is `(1, 0)` with
`startPage > endPage`. -/
theorem visible_page_range_invalid_in_dead_strip :
    pagesX 2500 1000 500 = 2 ∧
    (0 : ℚ) ≤ 2100 ∧ (2100 : ℚ) + 200 ≤ 2500 ∧
    get_visible_page_range true 2500 1000 500 (pagesX 2500 1000 500)
      2100 (2100 + 200) = (1, 0) ∧
    ¬ ((get_visible_page_range true 2500 1000 500 (pagesX 2500 1000 500)
      2100 (2100 + 200)).1 ≤
      (get_visible_page_range true 2500 1000 500 (pagesX 2500 1000 500)
        2100 (2100 + 200)).2) := by
  have hk : pagesX 2500 1000 500 = 2 := by
    unfold pagesX; rw [Int.ceil_eq_iff] <;> norm_num
  have hpair : get_visible_page_range true 2500 1000 500
      (pagesX 2500 1000 500) 2100 (2100 + 200) = (1, 0) := by
    rw [get_visible_page_range_rtl, hk]
    have h1 : (⌊((((2500 : ℤ) : ℚ) - 500) - (2100 + 200)) / ((1000 : ℤ) : ℚ)⌋ : ℤ)
        = -1 := by norm_num
    have h2 : (⌊((((2500 : ℤ) : ℚ) - 500) - 2100) / ((1000 : ℤ) : ℚ)⌋ : ℤ)
        = -1 := by norm_num
    rw [h1, h2]
    norm_num
  refine ⟨hk, by norm_num, by norm_num, hpair, ?_⟩
  rw [hpair]
  norm_num

/-- C7 (amended): whenever the view rectangle actually intersects the
paginated span (`[0, W − s)` for RightToLeft, `[s, W)` for
LeftToRight), the visible-page-range computation of
`get_visible_page_numbers` / `export_visible_pages` returns
`1 ≤ startPage ≤ endPage ≤ pageCount`; a view lying wholly in the
pageless strip next to the start anchor instead yields
`startPage > endPage` (an empty range). -/
theorem visible_page_range_valid (rtl : Rtl) (W p : ℤ) (s : ℚ) (l r : ℚ)
    (hW : 0 < W) (hp : 0 < p) (hs0 : 0 ≤ s) (hs1 : s ≤ (W : ℚ) - p)
    (hlr : l ≤ r)
    (hsect : if rtl then (l < (W : ℚ) - s ∧ 0 < r)
      else (l < (W : ℚ) ∧ s < r)) :
    1 ≤ (get_visible_page_range rtl W p s (pagesX W p s) l r).1 ∧
    (get_visible_page_range rtl W p s (pagesX W p s) l r).1 ≤
      (get_visible_page_range rtl W p s (pagesX W p s) l r).2 ∧
    (get_visible_page_range rtl W p s (pagesX W p s) l r).2 ≤
      pagesX W p s := by
  have hp' := pageWidth_posQ hp
  have hk1 : 1 ≤ pagesX W p s := one_le_pagesX hp hs1
  have hkp := span_le_pagesX_mul (W := W) (p := p) (s := s) hp
  cases rtl with
  | true =>
    rw [get_visible_page_range_rtl]
    dsimp only
    simp only [if_pos rfl] at hsect
    obtain ⟨hla, hr0⟩ := hsect
    have hY0 : 0 ≤ ⌊(((W : ℚ) - s) - l) / (p : ℚ)⌋ :=
      Int.floor_nonneg.2 (div_nonneg (by linarith) hp'.le)
    have hXk : ⌊(((W : ℚ) - s) - r) / (p : ℚ)⌋ < pagesX W p s :=
      Int.floor_lt.2 ((div_lt_iff hp').2 (by linarith))
    have hXY : ⌊(((W : ℚ) - s) - r) / (p : ℚ)⌋ ≤
        ⌊(((W : ℚ) - s) - l) / (p : ℚ)⌋ :=
      Int.floor_le_floor ((div_le_div_right hp').2 (by linarith))
    refine ⟨le_max_left _ _, ?_, min_le_left _ _⟩
    exact max_le (le_min hk1 (by omega)) (le_min (by omega) (by omega))
  | false =>
    rw [get_visible_page_range_ltr]
    dsimp only
    simp only [Bool.false_eq_true, if_false] at hsect
    obtain ⟨hlW, hsr⟩ := hsect
    have hY0 : 0 ≤ ⌊(r - s) / (p : ℚ)⌋ :=
      Int.floor_nonneg.2 (div_nonneg (by linarith) hp'.le)
    have hXk : ⌊(l - s) / (p : ℚ)⌋ < pagesX W p s :=
      Int.floor_lt.2 ((div_lt_iff hp').2 (by linarith))
    have hXY : ⌊(l - s) / (p : ℚ)⌋ ≤ ⌊(r - s) / (p : ℚ)⌋ :=
      Int.floor_le_floor ((div_le_div_right hp').2 (by linarith))
    refine ⟨le_max_left _ _, ?_, min_le_left _ _⟩
    exact max_le (le_min hk1 (by omega)) (le_min (by omega) (by omega))

/-- Witness for the amended C7: RightToLeft, 2500px raster, 1000px
pages, offset 500, with a view `[0, 2300]` overlapping the pages. -/
theorem visible_page_range_valid_witness :
    (0 < (2500 : ℤ) ∧ 0 < (1000 : ℤ) ∧ (0 : ℚ) ≤ 500 ∧
      (500 : ℚ) ≤ ((2500 : ℤ) : ℚ) - ((1000 : ℤ) : ℚ) ∧ (0 : ℚ) ≤ 2300 ∧
      (if true then ((0 : ℚ) < ((2500 : ℤ) : ℚ) - 500 ∧ (0 : ℚ) < 2300)
        else ((0 : ℚ) < ((2500 : ℤ) : ℚ) ∧ (500 : ℚ) < 2300))) ∧
    (1 ≤ (get_visible_page_range true 2500 1000 500 (pagesX 2500 1000 500)
        0 2300).1 ∧
      (get_visible_page_range true 2500 1000 500 (pagesX 2500 1000 500)
        0 2300).1 ≤
        (get_visible_page_range true 2500 1000 500 (pagesX 2500 1000 500)
          0 2300).2 ∧
      (get_visible_page_range true 2500 1000 500 (pagesX 2500 1000 500)
        0 2300).2 ≤ pagesX 2500 1000 500) := by
  refine ⟨⟨by norm_num, by norm_num, by norm_num, by norm_num, by norm_num,
    by norm_num⟩, ?_⟩
  exact visible_page_range_valid true 2500 1000 500 0 2300 (by norm_num)
    (by norm_num) (by norm_num) (by norm_num) (by norm_num) (by norm_num)

/-- Model of `on_scroll` (lines 326-347): pick the zoom factor from the scroll
direction, clamp the new zoom into `[0.01, 5.0]`, and re-derive the pan
so the image point under the mouse stays fixed.  Returns
`(zoom, pan_x, pan_y)`. -/
def on_scroll_view (zoom panX panY ex ey : ℚ) (scrollUp : Bool) :
    ℚ × ℚ × ℚ :=
  let factor : ℚ := if scrollUp then 6 / 5 else 5 / 6
  let mouseXImg := panX + ex / zoom
  let mouseYImg := panY + ey / zoom
  let z := max (1 / 100) (min 5 (zoom * factor))
  (z, mouseXImg - ex / z, mouseYImg - ey / z)

/-- Model of `zoom_100` (lines 204-208): sets the zoom to 1.0. -/
def zoom100 : ℚ := 1

/-- The zoom computed by `fit_to_window` (lines 189-202), including the
fallback to a 1400×800 canvas when the widget is not yet laid out:
`min(canvas_w / img_width, canvas_h / img_height) * 0.95`, unclamped. -/
def fit_to_window_zoom (canvasW canvasH imgWidth imgHeight : ℤ) : ℚ :=
  let cw : ℤ := if canvasW < 10 ∨ canvasH < 10 then 1400 else canvasW
  let ch : ℤ := if canvasW < 10 ∨ canvasH < 10 then 800 else canvasH
  min ((cw : ℚ) / (imgWidth : ℚ)) ((ch : ℚ) / (imgHeight : ℚ)) * (19 / 20)

/-- The zoom component of `on_scroll_view`, unfolded. -/
lemma on_scroll_view_zoom (zoom panX panY ex ey : ℚ) (up : Bool) :
    (on_scroll_view zoom panX panY ex ey up).1 =
      max (1 / 100) (min 5 (zoom * (if up then (6 : ℚ) / 5 else 5 / 6))) :=
  rfl

/-- C8 counterexample: fitting a 10×10 raster into the 1400×800
fallback canvas sets the zoom to 76.0, far above the 5.0 bound (and
unclamped). -/
theorem fit_to_window_zoom_out_of_bounds :
    fit_to_window_zoom 1400 800 10 10 = 76 ∧
    ¬ (fit_to_window_zoom 1400 800 10 10 ≤ 5) := by
  have h : fit_to_window_zoom 1400 800 10 10 = 76 := by
    unfold fit_to_window_zoom
    norm_num
  exact ⟨h, by rw [h]; norm_num⟩

/-- C8 (amended): the scroll-wheel zoom is clamped into `[0.01, 5.0]`
for every prior view state and both scroll directions, and
zoom-to-100% lands inside the range; `fit_to_window` computes
`min(canvas/raster) · 0.95` without clamping and can leave the range
(see the counterexample). -/
theorem zoom_bounds_after_scroll_and_100 :
    (∀ (zoom panX panY ex ey : ℚ) (up : Bool),
      1 / 100 ≤ (on_scroll_view zoom panX panY ex ey up).1 ∧
      (on_scroll_view zoom panX panY ex ey up).1 ≤ 5) ∧
    (1 / 100 ≤ zoom100 ∧ zoom100 ≤ 5) := by
  refine ⟨fun zoom panX panY ex ey up => ?_, by norm_num [zoom100]⟩
  rw [on_scroll_view_zoom]
  exact ⟨le_max_left _ _, max_le (by norm_num) (min_le_left _ _)⟩

/-! The raster model: Pillow crop/new/paste as used by `get_page_image`
and `export_page`.  A raster is its integer dimensions plus a total
pixel function (reads outside the bounds never influence the claims). -/

/-- A decoded bitmap: width, height and pixel lookup. -/
structure Raster where
  width : ℤ
  height : ℤ
  pix : ℤ → ℤ → ℕ

/-- Python's `round` (round-half-to-even), which Pillow applies to each
crop-box coordinate (`map(int, map(round, box))` in `Image._crop`). -/
def pyRound (q : ℚ) : ℤ :=
  if Int.fract q < 1 / 2 then ⌊q⌋
  else if 1 / 2 < Int.fract q then ⌊q⌋ + 1
  else if ⌊q⌋ % 2 = 0 then ⌊q⌋ else ⌊q⌋ + 1

/-- Rounding fixes the integers. -/
lemma pyRound_intCast (z : ℤ) : pyRound ((z : ℤ) : ℚ) = z := by
  unfold pyRound
  rw [Int.fract_intCast, Int.floor_intCast]
  norm_num

/-- Rounding fixes zero. -/
lemma pyRound_zero : pyRound 0 = 0 := by
  have h := pyRound_intCast 0
  simpa using h

/-- Pillow `Image.crop` on box `(l, 0, r, b)` patterns: `crop` raises
`ValueError` on an inverted box, then `_crop` rounds each coordinate
half-to-even and reads pixels relative to the rounded top-left
corner. -/
def cropRect (img : Raster) (l t r b : ℚ) : Except String Raster :=
  if r < l then .error "Coordinate right is less than left"
  else if b < t then .error "Coordinate lower is less than upper"
  else .ok ⟨pyRound r - pyRound l, pyRound b - pyRound t,
    fun i j => img.pix (pyRound l + i) (pyRound t + j)⟩

/-- The white fill `(255, 255, 255)` used for edge-page padding. -/
def whitePixel : ℕ := 255

/-- Model of `Image.new(mode, (w, h), (255, 255, 255))`. -/
def imageNew (w h : ℤ) : Raster := ⟨w, h, fun _ _ => whitePixel⟩

/-- Model of `full_page.paste(page_img, (x, y))`: overlay pixels inside the
pasted rectangle, base pixels elsewhere. -/
def pasteAt (base overlayImg : Raster) (x y : ℤ) : Raster :=
  ⟨base.width, base.height, fun i j =>
    if x ≤ i ∧ i < x + overlayImg.width ∧ y ≤ j ∧ j < y + overlayImg.height
    then overlayImg.pix (i - x) (j - y)
    else base.pix i j⟩

/-- Model of `get_page_image` (lines 737-763): crop the page rectangle (`top =
0`, `bottom = img_height`); if the crop is not exactly `page_width_px`
wide, paste it onto a white `page_width_px × page_height_px` canvas —
against the right edge for RightToLeft, against the left edge for
LeftToRight.  `export_page` (lines 435-474) repeats the same
crop-and-pad code before saving. -/
def get_page_image (rtl : Rtl) (imgWidth imgHeight pageWidthPx pageHeightPx : ℤ)
    (startOffset : ℚ) (original : Raster) (pageNum : ℤ) :
    Except String Raster :=
  let lr := pageRect rtl imgWidth pageWidthPx startOffset pageNum
  match cropRect original lr.1 0 lr.2 (imgHeight : ℚ) with
  | .error e => .error e
  | .ok pageImg =>
    if pageImg.width ≠ pageWidthPx then
      .ok (pasteAt (imageNew pageWidthPx pageHeightPx) pageImg
        (if rtl then pageWidthPx - pageImg.width else 0) 0)
    else .ok pageImg

/-- A file written by `export_page`. -/
structure ExportedFile where
  name : String
  img : Raster

/-- The zero-padded page number of the f-string `{page_num:03d}`. -/
def pad3 (n : ℤ) : String :=
  let t := toString n
  if t.length < 3 then String.mk (List.replicate (3 - t.length) '0') ++ t
  else t

/-- Model of `export_page` (lines 435-474): materialize the page and save it as
`{base_name}_page{page_num:03d}.png`; `saveOk` models whether the
`page_img.save` call succeeds (writable output path).  Note there is no
page-number range check here. -/
def export_page_run (rtl : Rtl)
    (imgWidth imgHeight pageWidthPx pageHeightPx : ℤ) (startOffset : ℚ)
    (original : Raster) (baseName : String) (saveOk : Bool) (pageNum : ℤ) :
    Except String ExportedFile :=
  match get_page_image rtl imgWidth imgHeight pageWidthPx pageHeightPx
      startOffset original pageNum with
  | .error e => .error e
  | .ok img =>
    if saveOk then
      .ok ⟨baseName ++ "_page" ++ pad3 pageNum ++ ".png", img⟩
    else .error "save failed"

/-- Model of `export_clicked_page` (lines 416-433): warns and does nothing
without an output directory, resolves the click to a page number, and
silently does nothing when that number is out of range. -/
def export_clicked_page_run (rtl : Rtl)
    (imgWidth imgHeight pageWidthPx pageHeightPx : ℤ) (startOffset : ℚ)
    (original : Raster) (baseName : String) (hasOutputDir saveOk : Bool)
    (pages : ℤ) (imgX : ℚ) : Option (Except String ExportedFile) :=
  if !hasOutputDir then none
  else
    let n := locatePage rtl imgWidth pageWidthPx startOffset imgX
    if 1 ≤ n ∧ n ≤ pages then
      some (export_page_run rtl imgWidth imgHeight pageWidthPx pageHeightPx
        startOffset original baseName saveOk n)
    else none

/-- A batch loop over page numbers: in the source (`export_all_pages`
lines 476-491, `export_visible_pages` lines 493-526) `export_page` is
called with no try/except, so a raised error aborts the remaining
iterations; files already written before the error stay written. -/
def exportSeq (exportOne : ℤ → Except String ExportedFile) :
    List ℤ → List ExportedFile × Option String
  | [] => ([], none)
  | n :: rest =>
    match exportOne n with
    | .error e => ([], some e)
    | .ok f =>
      let res := exportSeq exportOne rest
      (f :: res.1, res.2)

/-- The 1-based page list `range(1, pages_x + 1)`. -/
def pageList (k : ℤ) : List ℤ :=
  (List.range k.toNat).map (fun (i : ℕ) => (i : ℤ) + 1)

/-- Model of `export_all_pages` (lines 476-491): export every page in ascending
order. -/
def export_all_pages_run (rtl : Rtl)
    (imgWidth imgHeight pageWidthPx pageHeightPx : ℤ) (startOffset : ℚ)
    (original : Raster) (baseName : String) (saveOk : ℤ → Bool)
    (pages : ℤ) : List ExportedFile × Option String :=
  exportSeq (fun n => export_page_run rtl imgWidth imgHeight pageWidthPx
    pageHeightPx startOffset original baseName (saveOk n) n) (pageList pages)

/-- The bounds part of C1 as a reusable fact. -/
lemma pageRect_bounds_aux (rtl : Rtl) (W p : ℤ) (s : ℚ) (n : ℤ)
    (hp : 0 < p) (hs0 : 0 ≤ s) (hs1 : s ≤ (W : ℚ) - p) (hn1 : 1 ≤ n)
    (hn2 : n ≤ pagesX W p s) :
    0 ≤ (pageRect rtl W p s n).1 ∧
    (pageRect rtl W p s n).1 < (pageRect rtl W p s n).2 ∧
    (pageRect rtl W p s n).2 ≤ (W : ℚ) := by
  have hp' := pageWidth_posQ hp
  have hfit := pageNum_mul_lt hp hn2
  have hnn : (0 : ℚ) ≤ ((n : ℚ) - 1) * (p : ℚ) := by
    have h1 : (1 : ℚ) ≤ (n : ℚ) := by exact_mod_cast hn1
    nlinarith
  cases rtl with
  | true =>
    rw [pageRect_rtl]
    dsimp only
    exact ⟨le_max_left _ _, max_lt (by linarith) (by linarith), by linarith⟩
  | false =>
    rw [pageRect_ltr]
    dsimp only
    exact ⟨by linarith, lt_min (by linarith) (by linarith), min_le_right _ _⟩

/-- The page rectangle over the integers, for integer start offsets
(`export_page` computes the same values in float arithmetic). -/
def pageRectZ (rtl : Rtl) (W p so n : ℤ) : ℤ × ℤ :=
  if rtl then
    let right := (W - so) - (n - 1) * p
    (max 0 (right - p), right)
  else
    let left := so + (n - 1) * p
    (left, min (left + p) W)

/-- The RightToLeft branch of `pageRectZ`, unfolded. -/
lemma pageRectZ_rtl (W p so n : ℤ) :
    pageRectZ true W p so n =
      (max 0 (((W - so) - (n - 1) * p) - p), (W - so) - (n - 1) * p) := rfl

/-- The LeftToRight branch of `pageRectZ`, unfolded. -/
lemma pageRectZ_ltr (W p so n : ℤ) :
    pageRectZ false W p so n =
      (so + (n - 1) * p, min (so + (n - 1) * p + p) W) := rfl

/-- Width of the cropped page rectangle (before any padding). -/
def cropWidthZ (rtl : Rtl) (W p so n : ℤ) : ℤ :=
  (pageRectZ rtl W p so n).2 - (pageRectZ rtl W p so n).1

/-- Paste x offset used when padding an undersized page: `page_width_px
- page_img.size[0]` for RightToLeft (line 460), 0 for LeftToRight
(line 463). -/
def padXZ (rtl : Rtl) (W p so n : ℤ) : ℤ :=
  if rtl then p - cropWidthZ rtl W p so n else 0

/-- For integer start offsets, `pageRect` is the cast of `pageRectZ`. -/
lemma pageRect_cast (rtl : Rtl) (W p so n : ℤ) :
    pageRect rtl W p (so : ℚ) n =
      (((pageRectZ rtl W p so n).1 : ℚ), ((pageRectZ rtl W p so n).2 : ℚ)) := by
  cases rtl with
  | true =>
    rw [pageRect_rtl, pageRectZ_rtl]
    dsimp only
    rw [Prod.mk.injEq]
    refine ⟨by push_cast; try ring, by push_cast; try ring⟩
  | false =>
    rw [pageRect_ltr, pageRectZ_ltr]
    dsimp only
    rw [Prod.mk.injEq]
    refine ⟨by push_cast; try ring, by push_cast; try ring⟩

/-- Full evaluation of `get_page_image` at an integer start offset: the
crop succeeds and is padded exactly when its width differs from
`page_width_px`. -/
lemma get_page_image_eval (rtl : Rtl) (W H p pageH so : ℤ)
    (original : Raster) (n : ℤ)
    (hlr : (pageRectZ rtl W p so n).1 ≤ (pageRectZ rtl W p so n).2)
    (hH : 0 ≤ H) :
    get_page_image rtl W H p pageH (so : ℚ) original n =
      if cropWidthZ rtl W p so n ≠ p then
        .ok (pasteAt (imageNew p pageH)
          ⟨cropWidthZ rtl W p so n, H,
            fun i j => original.pix ((pageRectZ rtl W p so n).1 + i) j⟩
          (if rtl then p - cropWidthZ rtl W p so n else 0) 0)
      else
        .ok ⟨cropWidthZ rtl W p so n, H,
          fun i j => original.pix ((pageRectZ rtl W p so n).1 + i) j⟩ := by
  have hcrop : cropRect original ((pageRectZ rtl W p so n).1 : ℚ) 0
      ((pageRectZ rtl W p so n).2 : ℚ) ((H : ℤ) : ℚ) =
      .ok ⟨cropWidthZ rtl W p so n, H,
        fun i j => original.pix ((pageRectZ rtl W p so n).1 + i) j⟩ := by
    unfold cropRect
    rw [if_neg (not_lt.2 (show ((pageRectZ rtl W p so n).1 : ℚ) ≤
        ((pageRectZ rtl W p so n).2 : ℚ) by exact_mod_cast hlr)),
      if_neg (not_lt.2 (show (0 : ℚ) ≤ ((H : ℤ) : ℚ) by exact_mod_cast hH))]
    simp only [pyRound_intCast, pyRound_zero, sub_zero, zero_add]
    rfl
  unfold get_page_image
  rw [pageRect_cast]
  dsimp only
  rw [hcrop]

/-- The crop inside `get_page_image` always succeeds for a valid page
number, for any (also fractional) clamped start offset. -/
lemma get_page_image_isOk (rtl : Rtl) (W H p pageH : ℤ) (s : ℚ)
    (original : Raster) (n : ℤ) (hp : 0 < p) (hs0 : 0 ≤ s)
    (hs1 : s ≤ (W : ℚ) - p) (hn1 : 1 ≤ n) (hn2 : n ≤ pagesX W p s)
    (hH : 0 ≤ H) :
    ∃ out, get_page_image rtl W H p pageH s original n = .ok out := by
  have hb := pageRect_bounds_aux rtl W p s n hp hs0 hs1 hn1 hn2
  unfold get_page_image cropRect
  dsimp only
  rw [if_neg (not_lt.2 hb.2.1.le),
    if_neg (not_lt.2 (show (0 : ℚ) ≤ ((H : ℤ) : ℚ) by exact_mod_cast hH))]
  dsimp only
  split
  · exact ⟨_, rfl⟩
  · exact ⟨_, rfl⟩

/-- The crop is never wider than the page width. -/
lemma cropWidthZ_le (rtl : Rtl) (W p so n : ℤ) :
    cropWidthZ rtl W p so n ≤ p := by
  cases rtl with
  | true =>
    simp only [cropWidthZ, pageRectZ_rtl]
    generalize (n - 1) * p = q
    omega
  | false =>
    simp only [cropWidthZ, pageRectZ_ltr]
    generalize (n - 1) * p = q
    omega

/-- Pages that are not last in traversal order crop at full width. -/
lemma cropWidthZ_eq_of_inner (rtl : Rtl) (W p so n : ℤ)
    (hfit : n * p < W - so) : cropWidthZ rtl W p so n = p := by
  have e : n * p = (n - 1) * p + p := by ring
  rw [e] at hfit
  cases rtl with
  | true =>
    simp only [cropWidthZ, pageRectZ_rtl]
    generalize hq : (n - 1) * p = q
    rw [hq] at hfit
    omega
  | false =>
    simp only [cropWidthZ, pageRectZ_ltr]
    generalize hq : (n - 1) * p = q
    rw [hq] at hfit
    omega

/-- Reading a pasted pixel inside the overlay rectangle. -/
lemma pasteAt_pix_in (base ov : Raster) (x y i j : ℤ) (h1 : x ≤ i)
    (h2 : i < x + ov.width) (h3 : y ≤ j) (h4 : j < y + ov.height) :
    (pasteAt base ov x y).pix i j = ov.pix (i - x) (j - y) := by
  unfold pasteAt
  dsimp only
  rw [if_pos ⟨h1, h2, h3, h4⟩]

/-- Reading a pasted pixel outside the overlay rectangle. -/
lemma pasteAt_pix_out (base ov : Raster) (x y i j : ℤ)
    (h : ¬ (x ≤ i ∧ i < x + ov.width ∧ y ≤ j ∧ j < y + ov.height)) :
    (pasteAt base ov x y).pix i j = base.pix i j := by
  unfold pasteAt
  dsimp only
  rw [if_neg h]

/-- C2: for every `1 ≤ pageNum ≤ pageCount` (integer clamped start
offset), the materialized page raster of `get_page_image` /
`export_page` is exactly `pageWidthPx × pageHeightPx`; a crop narrower
than `pageWidthPx` happens only at the last page in traversal order,
and the short crop is pasted at `pageWidthPx − cropWidth` (content
against the right edge, white padding on the left) for RightToLeft and
at 0 (content against the left edge, white padding on the right) for
LeftToRight. -/
theorem get_page_image_dims_and_padding (rtl : Rtl) (W H p pageH so : ℤ)
    (original : Raster) (n : ℤ)
    (hW : 0 < W) (hp : 0 < p) (hH : 0 < H) (hpageH : pageH = H)
    (hs0 : 0 ≤ so) (hs1 : so ≤ W - p) (hn1 : 1 ≤ n)
    (hn2 : n ≤ pagesX W p (so : ℚ)) :
    ∃ res, get_page_image rtl W H p pageH (so : ℚ) original n = .ok res ∧
      res.width = p ∧ res.height = pageH ∧
      (cropWidthZ rtl W p so n < p → n = pagesX W p (so : ℚ)) ∧
      (∀ i j : ℤ, 0 ≤ i → i < cropWidthZ rtl W p so n → 0 ≤ j → j < H →
        res.pix (padXZ rtl W p so n + i) j =
          original.pix ((pageRectZ rtl W p so n).1 + i) j) ∧
      (∀ i j : ℤ,
        ((rtl = true ∧ 0 ≤ i ∧ i < padXZ rtl W p so n) ∨
          (rtl = false ∧ cropWidthZ rtl W p so n ≤ i ∧ i < p)) →
        res.pix i j = whitePixel) := by
  have hs0' : (0 : ℚ) ≤ (so : ℚ) := by exact_mod_cast hs0
  have hs1' : (so : ℚ) ≤ (W : ℚ) - (p : ℚ) := by
    have h := hs1
    have h2 : (so : ℚ) ≤ ((W - p : ℤ) : ℚ) := by exact_mod_cast h
    push_cast at h2
    linarith
  have hlt : (pageRectZ rtl W p so n).1 < (pageRectZ rtl W p so n).2 := by
    have hb := (pageRect_bounds_aux rtl W p (so : ℚ) n hp hs0' hs1' hn1 hn2).2.1
    rw [pageRect_cast] at hb
    dsimp only at hb
    exact_mod_cast hb
  have heval := get_page_image_eval rtl W H p pageH so original n hlt.le hH.le
  have hwle := cropWidthZ_le rtl W p so n
  have hnarrow : cropWidthZ rtl W p so n < p → n = pagesX W p (so : ℚ) := by
    intro hwlt
    by_contra hne
    have hnk : n + 1 ≤ pagesX W p (so : ℚ) := by
      rcases lt_or_eq_of_le hn2 with h | h
      · omega
      · exact absurd h hne
    have h4 : (n : ℚ) * (p : ℚ) < (W : ℚ) - (so : ℚ) := by
      have h3 := pageNum_mul_lt hp hnk
      have e : (((n + 1 : ℤ) : ℚ) - 1) * (p : ℚ) = (n : ℚ) * (p : ℚ) := by
        push_cast; ring
      rwa [e] at h3
    have hfitz : n * p < W - so := by exact_mod_cast h4
    have := cropWidthZ_eq_of_inner rtl W p so n hfitz
    omega
  by_cases hwp : cropWidthZ rtl W p so n = p
  · rw [heval, if_neg (not_ne_iff.2 hwp)]
    have hpad : padXZ rtl W p so n = 0 := by
      unfold padXZ
      cases rtl with
      | true => rw [if_pos rfl, hwp, sub_self]
      | false => rfl
    refine ⟨_, rfl, hwp, hpageH ▸ rfl, hnarrow, ?_, ?_⟩
    · intro i j hi0 hiw hj0 hjH
      dsimp only
      rw [hpad, zero_add]
    · intro i j h
      rcases h with ⟨hrtl, hi0, hilt⟩ | ⟨hrtl, hwle2, hip⟩
      · rw [hpad] at hilt
        omega
      · rw [hwp] at hwle2
        omega
  · rw [heval, if_pos hwp]
    have hwlt : cropWidthZ rtl W p so n < p := lt_of_le_of_ne hwle hwp
    have hpadrfl : (if rtl then p - cropWidthZ rtl W p so n else 0)
        = padXZ rtl W p so n := rfl
    refine ⟨_, rfl, rfl, rfl, hnarrow, ?_, ?_⟩
    · intro i j hi0 hiw hj0 hjH
      rw [hpadrfl, pasteAt_pix_in _ _ _ _ _ _ (by omega)
        (by dsimp only; omega) hj0 (by dsimp only; omega)]
      dsimp only
      rw [show padXZ rtl W p so n + i - padXZ rtl W p so n = i by ring,
        sub_zero]
    · intro i j h
      rcases h with ⟨hrtl, hi0, hilt⟩ | ⟨hrtl, hwle2, hip⟩
      · subst hrtl
        rw [pasteAt_pix_out]
        · rfl
        · rintro ⟨h1, -, -, -⟩
          rw [if_pos rfl] at h1
          have hilt2 : i < p - cropWidthZ true W p so n := hilt
          omega
      · subst hrtl
        rw [pasteAt_pix_out]
        · rfl
        · rintro ⟨-, h2, -, -⟩
          rw [if_neg (by simp : ¬(false = true))] at h2
          dsimp only at h2
          omega

/-- Witness for C2 at the spec's boundary scenario: RightToLeft,
2500×850 raster, 1000px pages, page 3 (the 500px-wide short page). -/
theorem get_page_image_dims_and_padding_witness :
    (0 < (2500 : ℤ) ∧ 0 < (1000 : ℤ) ∧ 0 < (850 : ℤ) ∧ (850 : ℤ) = 850 ∧
      0 ≤ (0 : ℤ) ∧ (0 : ℤ) ≤ 2500 - 1000 ∧ 1 ≤ (3 : ℤ) ∧
      (3 : ℤ) ≤ pagesX 2500 1000 ((0 : ℤ) : ℚ)) ∧
    (∃ res, get_page_image true 2500 850 1000 850 ((0 : ℤ) : ℚ)
        ⟨2500, 850, fun _ _ => 7⟩ 3 = .ok res ∧
      res.width = 1000 ∧ res.height = 850 ∧
      (cropWidthZ true 2500 1000 0 3 < 1000 →
        (3 : ℤ) = pagesX 2500 1000 ((0 : ℤ) : ℚ)) ∧
      (∀ i j : ℤ, 0 ≤ i → i < cropWidthZ true 2500 1000 0 3 → 0 ≤ j →
        j < 850 → res.pix (padXZ true 2500 1000 0 3 + i) j =
          (⟨2500, 850, fun _ _ => 7⟩ : Raster).pix
            ((pageRectZ true 2500 1000 0 3).1 + i) j) ∧
      (∀ i j : ℤ,
        ((true = true ∧ 0 ≤ i ∧ i < padXZ true 2500 1000 0 3) ∨
          (true = false ∧ cropWidthZ true 2500 1000 0 3 ≤ i ∧ i < 1000)) →
        res.pix i j = whitePixel)) := by
  have hpx : pagesX 2500 1000 ((0 : ℤ) : ℚ) = 3 := by
    unfold pagesX; rw [Int.ceil_eq_iff] <;> norm_num
  refine ⟨⟨by norm_num, by norm_num, by norm_num, rfl, le_refl _, by norm_num,
    by norm_num, by omega⟩, ?_⟩
  exact get_page_image_dims_and_padding true 2500 850 1000 850 0
    ⟨2500, 850, fun _ _ => 7⟩ 3 (by norm_num) (by norm_num) (by norm_num) rfl
    (le_refl _) (by norm_num) (by norm_num) (by omega)

/-- C5 counterexample: RightToLeft, 2000px raster, 1000px pages (2
pages).  `export_page` at the out-of-range page 3 crops the empty span
`[0, 0)`, pads it to an all-white page and writes the file: it raises
no error and skips nothing.  (The range guard lives only in
`export_clicked_page`.) -/
theorem export_page_out_of_range_writes :
    pagesX 2000 1000 ((0 : ℤ) : ℚ) = 2 ∧
    ¬ (1 ≤ (3 : ℤ) ∧ (3 : ℤ) ≤ pagesX 2000 1000 ((0 : ℤ) : ℚ)) ∧
    (export_page_run true 2000 850 1000 850 ((0 : ℤ) : ℚ)
      ⟨2000, 850, fun _ _ => 7⟩ "pano" true 3).isOk = true := by
  have hpx : pagesX 2000 1000 ((0 : ℤ) : ℚ) = 2 := by
    unfold pagesX; rw [Int.ceil_eq_iff] <;> norm_num
  have hlr : (pageRectZ true 2000 1000 0 3).1 ≤ (pageRectZ true 2000 1000 0 3).2 := by
    rw [pageRectZ_rtl]; decide
  have hw : cropWidthZ true 2000 1000 0 3 = 0 := by
    simp only [cropWidthZ, pageRectZ_rtl]; decide
  refine ⟨hpx, by rw [hpx]; omega, ?_⟩
  unfold export_page_run
  rw [get_page_image_eval true 2000 850 1000 850 0 ⟨2000, 850, fun _ _ => 7⟩ 3
    hlr (by norm_num), if_pos (by rw [hw]; norm_num)]
  rfl

/-- C5 (amended): `export_page` performs no page-range validation and
does not fail on out-of-range numbers (see the counterexample); the
range check lives in its caller `export_clicked_page`, which silently
exports nothing when the clicked page is outside `[1, pageCount]`.  For
every page inside `[1, pageCount]` with a writable output directory,
`export_page` succeeds and writes the page file. -/
theorem export_page_range_behaviour (rtl : Rtl) (W H p pageH : ℤ) (s : ℚ)
    (original : Raster) (baseName : String)
    (hW : 0 < W) (hp : 0 < p) (hs0 : 0 ≤ s) (hs1 : s ≤ (W : ℚ) - p)
    (hH : 0 ≤ H) :
    (∀ n : ℤ, 1 ≤ n → n ≤ pagesX W p s →
      ∃ f, export_page_run rtl W H p pageH s original baseName true n
        = .ok f) ∧
    (∀ imgX : ℚ,
      ¬ (1 ≤ locatePage rtl W p s imgX ∧
        locatePage rtl W p s imgX ≤ pagesX W p s) →
      export_clicked_page_run rtl W H p pageH s original baseName true true
        (pagesX W p s) imgX = none) := by
  constructor
  · intro n hn1 hn2
    obtain ⟨out, hout⟩ := get_page_image_isOk rtl W H p pageH s original n
      hp hs0 hs1 hn1 hn2 hH
    refine ⟨⟨baseName ++ "_page" ++ pad3 n ++ ".png", out⟩, ?_⟩
    unfold export_page_run
    rw [hout]
    rfl
  · intro imgX hrange
    unfold export_clicked_page_run
    rw [if_neg (by simp : ¬((!true) = true))]
    dsimp only
    rw [if_neg hrange]

/-- Witness for the amended C5: RightToLeft, 2500×850 raster, 1000px
pages, zero offset. -/
theorem export_page_range_behaviour_witness :
    (0 < (2500 : ℤ) ∧ 0 < (1000 : ℤ) ∧ (0 : ℚ) ≤ 0 ∧
      (0 : ℚ) ≤ ((2500 : ℤ) : ℚ) - ((1000 : ℤ) : ℚ) ∧ 0 ≤ (850 : ℤ)) ∧
    ((∀ n : ℤ, 1 ≤ n → n ≤ pagesX 2500 1000 0 →
      ∃ f, export_page_run true 2500 850 1000 850 0
        ⟨2500, 850, fun _ _ => 7⟩ "pano" true n = .ok f) ∧
    (∀ imgX : ℚ,
      ¬ (1 ≤ locatePage true 2500 1000 0 imgX ∧
        locatePage true 2500 1000 0 imgX ≤ pagesX 2500 1000 0) →
      export_clicked_page_run true 2500 850 1000 850 0
        ⟨2500, 850, fun _ _ => 7⟩ "pano" true true
        (pagesX 2500 1000 0) imgX = none)) := by
  refine ⟨⟨by norm_num, by norm_num, le_refl _, by norm_num, by norm_num⟩, ?_⟩
  exact export_page_range_behaviour true 2500 850 1000 850 0
    ⟨2500, 850, fun _ _ => 7⟩ "pano" (by norm_num) (by norm_num) (le_refl _)
    (by norm_num) (by norm_num)

/-- A successful batch: every per-page export is ok, nothing aborts,
every page is written. -/
lemma exportSeq_all_ok (f : ℤ → Except String ExportedFile) (l : List ℤ)
    (h : ∀ a ∈ l, (f a).isOk = true) :
    (exportSeq f l).2 = none ∧ (exportSeq f l).1.length = l.length := by
  induction l with
  | nil => exact ⟨rfl, rfl⟩
  | cons a rest ih =>
    have ha := h a (List.mem_cons_self a rest)
    obtain ⟨v, hv⟩ : ∃ v, f a = .ok v := by
      cases hfa : f a with
      | error e => rw [hfa] at ha; exact Bool.noConfusion ha
      | ok v => exact ⟨v, rfl⟩
    have ih2 := ih (fun b hb => h b (List.mem_cons_of_mem a hb))
    unfold exportSeq
    rw [hv]
    dsimp only
    exact ⟨ih2.1, by simp [ih2.2]⟩

/-- An aborted batch: the first failing page stops the loop; exactly
the pages before it are written and an error escapes. -/
lemma exportSeq_abort (f : ℤ → Except String ExportedFile) (pre : List ℤ)
    (m : ℤ) (post : List ℤ) (hpre : ∀ a ∈ pre, (f a).isOk = true)
    (hm : (f m).isOk = false) :
    (exportSeq f (pre ++ m :: post)).1.length = pre.length ∧
    (exportSeq f (pre ++ m :: post)).2.isSome = true := by
  induction pre with
  | nil =>
    rw [List.nil_append]
    cases hfm : f m with
    | error e =>
      unfold exportSeq
      rw [hfm]
      exact ⟨rfl, rfl⟩
    | ok v => rw [hfm] at hm; exact Bool.noConfusion hm
  | cons a rest ih =>
    have ha := hpre a (List.mem_cons_self a rest)
    obtain ⟨v, hv⟩ : ∃ v, f a = .ok v := by
      cases hfa : f a with
      | error e => rw [hfa] at ha; exact Bool.noConfusion ha
      | ok v => exact ⟨v, rfl⟩
    have ih2 := ih (fun b hb => hpre b (List.mem_cons_of_mem a hb))
    rw [List.cons_append]
    unfold exportSeq
    rw [hv]
    dsimp only
    exact ⟨by simp [ih2.1], ih2.2⟩

/-- Members of the 1-based page list are in `[1, k]`. -/
lemma mem_pageList {k n : ℤ} (h : n ∈ pageList k) : 1 ≤ n ∧ n ≤ k := by
  unfold pageList at h
  obtain ⟨i, hi, rfl⟩ := List.mem_map.1 h
  rw [List.mem_range] at hi
  omega

/-- Length of the 1-based page list. -/
lemma pageList_length (k : ℤ) : (pageList k).length = k.toNat := by
  unfold pageList
  rw [List.length_map, List.length_range]

/-- C6 counterexample: RightToLeft, 2000px raster, 1000px pages (2
pages), with the save of page 1 failing and page 2 writable.  The batch
of `export_all_pages` aborts at page 1: nothing is written (page 2 is
never attempted) and the error escapes — the loop neither continues
past the failure nor reports an exported/failed count. -/
theorem export_all_pages_aborts_on_failure :
    pagesX 2000 1000 ((0 : ℤ) : ℚ) = 2 ∧
    export_all_pages_run true 2000 850 1000 850 ((0 : ℤ) : ℚ)
      ⟨2000, 850, fun _ _ => 7⟩ "pano" (fun n => n != 1)
      (pagesX 2000 1000 ((0 : ℤ) : ℚ)) = ([], some "save failed") := by
  have hpx : pagesX 2000 1000 ((0 : ℤ) : ℚ) = 2 := by
    unfold pagesX; rw [Int.ceil_eq_iff] <;> norm_num
  refine ⟨hpx, ?_⟩
  rw [hpx]
  have hexp1 : export_page_run true 2000 850 1000 850 ((0 : ℤ) : ℚ)
      ⟨2000, 850, fun _ _ => 7⟩ "pano" ((fun n : ℤ => n != 1) 1) 1
      = .error "save failed" := by
    unfold export_page_run
    rw [get_page_image_eval true 2000 850 1000 850 0 ⟨2000, 850, fun _ _ => 7⟩
      1 (by rw [pageRectZ_rtl]; decide) (by norm_num)]
    rw [if_neg (by simp only [cropWidthZ, pageRectZ_rtl]; decide)]
    rfl
  unfold export_all_pages_run
  rw [show pageList 2 = [1, 2] from by decide]
  show exportSeq _ (1 :: [2]) = _
  unfold exportSeq
  rw [hexp1]

/-- C6 (amended): the batch loops of `export_all_pages` /
`export_visible_pages` call `export_page` for each page in ascending
order with no per-page error handling.  When every save succeeds, the
whole batch is exported (and the completion message reports the total
count); when a page fails, the loop aborts — exactly the pages before
the first failure are written, the error escapes, and no aggregate
failed count is reported. -/
theorem export_batch_all_or_abort (rtl : Rtl) (W H p pageH : ℤ) (s : ℚ)
    (original : Raster) (baseName : String) (saveOk : ℤ → Bool)
    (hp : 0 < p) (hs0 : 0 ≤ s) (hs1 : s ≤ (W : ℚ) - p) (hH : 0 ≤ H) :
    ((∀ n : ℤ, 1 ≤ n → n ≤ pagesX W p s → saveOk n = true) →
      (export_all_pages_run rtl W H p pageH s original baseName saveOk
        (pagesX W p s)).2 = none ∧
      (export_all_pages_run rtl W H p pageH s original baseName saveOk
        (pagesX W p s)).1.length = (pagesX W p s).toNat) ∧
    (∀ (f : ℤ → Except String ExportedFile) (pre : List ℤ) (m : ℤ)
      (post : List ℤ),
      (∀ a ∈ pre, (f a).isOk = true) → (f m).isOk = false →
      (exportSeq f (pre ++ m :: post)).1.length = pre.length ∧
      (exportSeq f (pre ++ m :: post)).2.isSome = true) := by
  constructor
  · intro hsave
    unfold export_all_pages_run
    have hok : ∀ a ∈ pageList (pagesX W p s),
        ((fun n => export_page_run rtl W H p pageH s original baseName
          (saveOk n) n) a).isOk = true := by
      intro a ha
      obtain ⟨h1, h2⟩ := mem_pageList ha
      obtain ⟨out, hout⟩ := get_page_image_isOk rtl W H p pageH s original a
        hp hs0 hs1 h1 h2 hH
      dsimp only
      rw [hsave a h1 h2]
      unfold export_page_run
      rw [hout]
      rfl
    have h := exportSeq_all_ok _ _ hok
    rw [pageList_length] at h
    exact h
  · exact fun f pre m post hpre hm => exportSeq_abort f pre m post hpre hm

/-- Witness for the amended C6: a 2500×850 raster with 1000px pages and
an all-succeeding save on one hand, and a concrete aborting batch on
the other. -/
theorem export_batch_all_or_abort_witness :
    (0 < (1000 : ℤ) ∧ (0 : ℚ) ≤ 0 ∧
      (0 : ℚ) ≤ ((2500 : ℤ) : ℚ) - ((1000 : ℤ) : ℚ) ∧ 0 ≤ (850 : ℤ)) ∧
    (((∀ n : ℤ, 1 ≤ n → n ≤ pagesX 2500 1000 0 →
        (fun _ : ℤ => true) n = true) →
      (export_all_pages_run true 2500 850 1000 850 0
        ⟨2500, 850, fun _ _ => 7⟩ "pano" (fun _ => true)
        (pagesX 2500 1000 0)).2 = none ∧
      (export_all_pages_run true 2500 850 1000 850 0
        ⟨2500, 850, fun _ _ => 7⟩ "pano" (fun _ => true)
        (pagesX 2500 1000 0)).1.length = (pagesX 2500 1000 0).toNat) ∧
    (∀ (f : ℤ → Except String ExportedFile) (pre : List ℤ) (m : ℤ)
      (post : List ℤ),
      (∀ a ∈ pre, (f a).isOk = true) → (f m).isOk = false →
      (exportSeq f (pre ++ m :: post)).1.length = pre.length ∧
      (exportSeq f (pre ++ m :: post)).2.isSome = true)) := by
  refine ⟨⟨by norm_num, le_refl _, by norm_num, by norm_num⟩, ?_⟩
  exact export_batch_all_or_abort true 2500 850 1000 850 0
    ⟨2500, 850, fun _ _ => 7⟩ "pano" (fun _ => true) (by norm_num)
    (le_refl _) (by norm_num) (by norm_num)

/-- Python's `int()` on a float: truncation toward zero. -/
def pyInt (q : ℚ) : ℤ := if 0 ≤ q then ⌊q⌋ else ⌈q⌉

/-- The in-memory state touched by `load_image`: image fields (lines
33-36), derived page spec (lines 157-159), pagination (lines 161-165),
output dir (lines 177-178) and view fields (lines 39-41). -/
structure AppState where
  originalImage : Option Raster
  imagePath : Option String
  imgWidth : ℤ
  imgHeight : ℤ
  pixelsPerInch : ℚ
  pageWidthPx : ℤ
  pageHeightPx : ℤ
  startOffset : ℚ
  pagesX : ℤ
  outputDir : Option String
  zoom : ℚ
  panX : ℚ
  panY : ℚ

/-- Outcome of the decode collaborator inside `load_image`:
`Image.open(path)` can raise (unreadable file), or succeed and then
`self.original_image.load()` raise (corrupt pixel data), or both
succeed. -/
inductive DecodeResult where
  | openFails : DecodeResult
  | loadFails : Raster → DecodeResult
  | decoded : Raster → DecodeResult

/-- Model of `load_image` (lines 144-187).  The try block assigns
`self.original_image = Image.open(path)` (line 150) before the fallible
`load()` call (line 151); the except arm (lines 185-187) only reports.
So: if `open` raises nothing was assigned; if `load()` raises the
raster reference has already been replaced while every derived field
still describes the previous image; on success all fields are
recomputed and `fit_to_window` resets the view. -/
def load_image (st : AppState) (path : String) (dirOfPath : String)
    (canvasW canvasH : ℤ) (res : DecodeResult) : AppState :=
  match res with
  | .openFails => st
  | .loadFails img => { st with originalImage := some img }
  | .decoded img =>
    let W := img.width
    let H := img.height
    let ppi : ℚ := (H : ℚ) / (17 / 2)
    let p : ℤ := pyInt (ppi * 11)
    { originalImage := some img
      imagePath := some path
      imgWidth := W
      imgHeight := H
      pixelsPerInch := ppi
      pageWidthPx := p
      pageHeightPx := H
      startOffset := 0
      pagesX := ⌈(W : ℚ) / (p : ℚ)⌉
      outputDir := if st.outputDir = none then some dirOfPath else st.outputDir
      zoom := fit_to_window_zoom canvasW canvasH W H
      panX := 0
      panY := 0 }

/-- A consistent loaded state: a 2500×850 raster with its derived page
spec (ppi 100, 1100px pages, 3 pages). -/
def priorState : AppState :=
  { originalImage := some ⟨2500, 850, fun _ _ => 7⟩
    imagePath := some "pano.png"
    imgWidth := 2500
    imgHeight := 850
    pixelsPerInch := 100
    pageWidthPx := 1100
    pageHeightPx := 850
    startOffset := 0
    pagesX := 3
    outputDir := some "out"
    zoom := 1 / 2
    panX := 0
    panY := 0 }

/-- C9: when `Image.open` succeeds but `load()` raises (corrupt pixel
data), the caught failure leaves `self.original_image` pointing at the
new broken image while the dimensions, page spec and pagination still
describe the previous raster — the prior in-memory state is NOT
retained unchanged, contradicting the intended
report-and-retain error handling (which the `openFails` path does
honour). -/
theorem load_image_decode_failure_replaces_raster :
    (load_image priorState "corrupt.png" "dir" 1400 800
      (.loadFails ⟨40, 30, fun _ _ => 0⟩)).originalImage
      = some ⟨40, 30, fun _ _ => 0⟩ ∧
    (load_image priorState "corrupt.png" "dir" 1400 800
      (.loadFails ⟨40, 30, fun _ _ => 0⟩)).originalImage
      ≠ priorState.originalImage ∧
    (load_image priorState "corrupt.png" "dir" 1400 800
      (.loadFails ⟨40, 30, fun _ _ => 0⟩)).imgWidth = priorState.imgWidth ∧
    (load_image priorState "corrupt.png" "dir" 1400 800
      (.loadFails ⟨40, 30, fun _ _ => 0⟩)).imgHeight = priorState.imgHeight ∧
    (load_image priorState "corrupt.png" "dir" 1400 800
      (.loadFails ⟨40, 30, fun _ _ => 0⟩)).pixelsPerInch
      = priorState.pixelsPerInch ∧
    (load_image priorState "corrupt.png" "dir" 1400 800
      (.loadFails ⟨40, 30, fun _ _ => 0⟩)).pageWidthPx
      = priorState.pageWidthPx ∧
    (load_image priorState "corrupt.png" "dir" 1400 800
      (.loadFails ⟨40, 30, fun _ _ => 0⟩)).pageHeightPx
      = priorState.pageHeightPx ∧
    (load_image priorState "corrupt.png" "dir" 1400 800
      (.loadFails ⟨40, 30, fun _ _ => 0⟩)).startOffset
      = priorState.startOffset ∧
    (load_image priorState "corrupt.png" "dir" 1400 800
      (.loadFails ⟨40, 30, fun _ _ => 0⟩)).pagesX = priorState.pagesX ∧
    load_image priorState "x.png" "d" 1400 800 .openFails = priorState := by
  refine ⟨rfl, ?_, rfl, rfl, rfl, rfl, rfl, rfl, rfl, rfl⟩
  intro h
  have h2 : some (⟨40, 30, fun _ _ => 0⟩ : Raster)
      = some (⟨2500, 850, fun _ _ => 7⟩ : Raster) := h
  rw [Option.some.injEq, Raster.mk.injEq] at h2
  norm_num at h2

end PanoramaSlicer
